import Mathlib

/-!
Verification of the availability REST API in `src/server/api.js`.

Shallow embedding conventions:

* The external store (the supabase table `availability`) is a list of rows
  `Store := List Row`. The table's columns are `date`, `status`, `message`,
  `time_slots`; a nullable column is an `Option`.
* Calendar dates (`YYYY-MM-DD` strings in the source) are encoded as `Nat`
  day indices counted from an epoch. Lexicographic order on `YYYY-MM-DD`
  strings coincides with chronological order, so the store's
  `order('date', ascending: true)` is numeric order on the index. The
  JavaScript expression `new Date(day.date)` denotes the midnight instant of
  that day, i.e. `date * msPerDay` milliseconds since the epoch, and
  `new Date()` is the current instant `now : Nat` in milliseconds.
* Time-slot descriptors are opaque to this layer; they are encoded as
  `String`, and a `time_slots` column value is `Option (List String)`
  (`none` is SQL/JSON null).
* Happy-path handlers are pure functions of the store (and `now`); the
  `catch` blocks shared by all routes are embedded separately as
  `handleStoreError`, indexed by the operation.
-/

/-- A persisted row of the `availability` table
(columns `date`, `status`, `message`, `time_slots`). -/
structure Row where
  date : Nat
  status : String
  message : Option String
  time_slots : Option (List String)
deriving DecidableEq

/-- The external store: the rows of the `availability` table. -/
abbrev Store := List Row

/-- Milliseconds per day: `new Date(d)` for a `YYYY-MM-DD` string `d` is the
midnight instant `d * msPerDay` of that day. -/
def msPerDay : Nat := 86400000

/-- `supabase.from('availability').select('*').order('date', ascending)`:
the rows sorted by date ascending (api.js lines 30-33). -/
def sortByDate (s : Store) : List Row :=
  List.insertionSort (fun a b => a.date ≤ b.date) s

/-- One value of the `days` object in the list-all response:
`{status, message, timeSlots: day.time_slots}` (api.js lines 42-46).
`time_slots` is passed through verbatim, so `timeSlots` is still an
`Option`. -/
structure DayEntry where
  status : String
  message : Option String
  timeSlots : Option (List String)
deriving DecidableEq

/-- The `days[day.date] = {...}` entry built from a row (api.js lines 42-46). -/
def rowEntry (r : Row) : DayEntry :=
  ⟨r.status, r.message, r.time_slots⟩

/-- JavaScript object assignment `m[k] = v`: overwrite in place if the key is
present, otherwise append (string keys keep insertion order). -/
def objSet (m : List (Nat × DayEntry)) (k : Nat) (v : DayEntry) :
    List (Nat × DayEntry) :=
  if (m.lookup k).isSome then
    m.map (fun p => if p.1 = k then (k, v) else p)
  else
    m ++ [(k, v)]

/-- The `days` object accumulated by the `data.forEach` loop
(api.js lines 38-46). -/
def buildDays (rows : List Row) : List (Nat × DayEntry) :=
  rows.foldl (fun m r => objSet m r.date (rowEntry r)) []

/-- The `nextAvailable` value `{date, timeSlots}` (api.js lines 50-53). -/
structure NextAvailable where
  date : Nat
  timeSlots : Option (List String)
deriving DecidableEq

/-- The `nextAvailable` computation of the forEach loop (api.js lines 48-54):
starting from `null`, it is set by the first row, in iteration order, with
`day.status === 'available' && new Date(day.date) >= new Date()`; so it is
`find?` of that predicate over the (sorted) rows. -/
def findNextAvailable (now : Nat) (rows : List Row) : Option NextAvailable :=
  (rows.find? (fun r => r.status == "available" && decide (now ≤ r.date * msPerDay))).map
    (fun r => ⟨r.date, r.time_slots⟩)

/-- The JSON body of the list-all response (api.js lines 57-61).
`lastUpdated` is `new Date().toISOString()`, i.e. the instant `now`. -/
structure ListResponse where
  days : List (Nat × DayEntry)
  nextAvailable : Option NextAvailable
  lastUpdated : Nat
deriving DecidableEq

/-- Happy path of `GET /api/availability` (api.js lines 28-61). -/
def getAllAvailability (now : Nat) (s : Store) : ListResponse :=
  let rows := sortByDate s
  ⟨buildDays rows, findNextAvailable now rows, now⟩

/-- Access `days[d]` on a list response. -/
def lookupDay (resp : ListResponse) (d : Nat) : Option DayEntry :=
  resp.days.lookup d

/-- `.eq('date', d).single()` (api.js lines 71-75): `data` is the matching
row when exactly one row matches; with zero (or several) matching rows the
store answers error `PGRST116` and `data` is null, which the handler treats
as absence (line 77 re-raises only non-`PGRST116` errors). -/
def selectSingle (s : Store) (d : Nat) : Option Row :=
  match s.filter (fun r => r.date == d) with
  | [r] => some r
  | _ => none

/-- The JSON body of the single-date response
(api.js lines 80-85 and 88-93). -/
structure DateBody where
  date : Nat
  status : String
  message : Option String
  timeSlots : List String
deriving DecidableEq

/-- A single-date response: HTTP status plus JSON body. -/
structure DateResponse where
  httpStatus : Nat
  body : DateBody
deriving DecidableEq

/-- Happy path of `GET /api/availability/:date` (api.js lines 69-98):
absent row (line 79) synthesizes the default record; a present row is
returned with `timeSlots: data.time_slots || []` (line 92). Both branches
answer via `res.json`, HTTP 200. -/
def getAvailabilityForDate (s : Store) (d : Nat) : DateResponse :=
  match selectSingle s d with
  | none => ⟨200, ⟨d, "available", none, []⟩⟩
  | some data => ⟨200, ⟨data.date, data.status, data.message, data.time_slots.getD []⟩⟩

/-- The request body `{date, status, message, timeSlots}` of
`POST /api/availability` (api.js line 103). -/
structure Body where
  date : Nat
  status : String
  message : Option String
  timeSlots : Option (List String)
deriving DecidableEq

/-- The row written by the upsert (api.js lines 107-111): the wire field
`timeSlots` goes into the store column `time_slots`. -/
def rowOfBody (b : Body) : Row :=
  ⟨b.date, b.status, b.message, b.timeSlots⟩

/-- `upsert({...}, onConflict: 'date')` (api.js lines 105-114): overwrite
every row whose `date` conflicts, insert otherwise. -/
def upsert (s : Store) (b : Body) : Store :=
  if s.any (fun r => r.date == b.date) then
    s.map (fun r => if r.date == b.date then rowOfBody b else r)
  else
    s ++ [rowOfBody b]

/-- The `{success: true}` response of the delete route. -/
structure DeleteResponse where
  httpStatus : Nat
  success : Bool
deriving DecidableEq

/-- Happy path of `DELETE /api/availability/:date` (api.js lines 126-140):
`delete().eq('date', d)` removes every matching row (no error when none
match), then `res.json({success: true})`. -/
def deleteAvailability (s : Store) (d : Nat) : Store × DeleteResponse :=
  (s.filter (fun r => !(r.date == d)), ⟨200, true⟩)

/-- The five routes of the API, to index their `catch` blocks. -/
inductive Op
  | getAll
  | getDate
  | save
  | remove
  | statusProbe
deriving DecidableEq

/-- What a `catch` block produces: the `console.error` prefix and the logged
error detail, and the HTTP status and JSON body (as string fields) sent to
the caller. -/
structure ErrorHandling where
  loggedPrefix : String
  loggedError : String
  httpStatus : Nat
  responseBody : List (String × String)
deriving DecidableEq

/-- The `catch` blocks of the five routes (api.js lines 62-65, 94-97,
119-122, 136-139, 159-165), applied to a store failure whose message is
`errMsg`. Note line 163: the status probe puts `error.message` itself into
the response body. -/
def handleStoreError (op : Op) (errMsg : String) : ErrorHandling :=
  match op with
  | .getAll =>
      ⟨"Error fetching availability:", errMsg, 500,
        [("error", "Failed to fetch availability")]⟩
  | .getDate =>
      ⟨"Error fetching date:", errMsg, 500,
        [("error", "Failed to fetch date")]⟩
  | .save =>
      ⟨"Error saving availability:", errMsg, 500,
        [("error", "Failed to save availability")]⟩
  | .remove =>
      ⟨"Error deleting availability:", errMsg, 500,
        [("error", "Failed to delete availability")]⟩
  | .statusProbe =>
      ⟨"Database connection error:", errMsg, 500,
        [("status", "disconnected"), ("error", errMsg)]⟩

/-! ### Helper lemmas -/

instance : IsTotal Row (fun a b => a.date ≤ b.date) :=
  ⟨fun a b => Nat.le_total a.date b.date⟩

instance : IsTrans Row (fun a b => a.date ≤ b.date) :=
  ⟨fun _ _ _ h h' => Nat.le_trans h h'⟩

theorem sortByDate_perm (s : Store) : List.Perm (sortByDate s) s :=
  List.perm_insertionSort _ s

theorem sortByDate_sorted (s : Store) :
    List.Sorted (fun a b : Row => a.date ≤ b.date) (sortByDate s) :=
  List.sorted_insertionSort _ s

/-- Two rows of a store whose date column is duplicate-free are equal as soon
as their dates agree. -/
theorem row_eq_of_date_eq {s : Store} (hnodup : (s.map Row.date).Nodup)
    {r x : Row} (hr : r ∈ s) (hx : x ∈ s) (h : r.date = x.date) : r = x :=
  List.inj_on_of_nodup_map hnodup hr hx h

/-- In a store with duplicate-free dates, filtering on the date of a member
returns exactly that member. -/
theorem filter_date_eq_singleton (s : Store) (r : Row)
    (hnodup : (s.map Row.date).Nodup) (hr : r ∈ s) :
    s.filter (fun x => x.date == r.date) = [r] := by
  induction s with
  | nil => cases hr
  | cons a t ih =>
    rw [List.map_cons, List.nodup_cons] at hnodup
    obtain ⟨ha, ht⟩ := hnodup
    rcases List.mem_cons.1 hr with rfl | hrt
    · rw [List.filter_cons_of_pos (by simp)]
      have hnil : t.filter (fun x => x.date == r.date) = [] := by
        rw [List.filter_eq_nil_iff]
        intro x hx hbeq
        have hxd : x.date = r.date := by simpa using hbeq
        exact ha (by rw [← hxd]; exact List.mem_map_of_mem Row.date hx)
      rw [hnil]
    · rw [List.filter_cons_of_neg]
      · exact ih ht hrt
      · simp only [beq_iff_eq]
        intro had
        exact ha (by rw [had]; exact List.mem_map_of_mem Row.date hrt)

/-- In a store with duplicate-free dates, searching for the date of a member
finds exactly that member. -/
theorem find?_date_eq_self (s : Store) (r : Row)
    (hnodup : (s.map Row.date).Nodup) (hr : r ∈ s) :
    s.find? (fun x => r.date == x.date) = some r := by
  induction s with
  | nil => cases hr
  | cons a t ih =>
    rw [List.map_cons, List.nodup_cons] at hnodup
    obtain ⟨ha, ht⟩ := hnodup
    rcases List.mem_cons.1 hr with rfl | hrt
    · exact List.find?_cons_of_pos _ (by simp)
    · rw [List.find?_cons_of_neg]
      · exact ih ht hrt
      · simp only [beq_iff_eq]
        intro had
        exact ha (by rw [← had]; exact List.mem_map_of_mem Row.date hrt)

theorem lookup_append_left_none {β : Type} (m m' : List (Nat × β)) (k : Nat)
    (h : m.lookup k = none) : (m ++ m').lookup k = m'.lookup k := by
  induction m with
  | nil => simp
  | cons p t ih =>
    obtain ⟨k', v⟩ := p
    cases hk : k == k' <;> simp only [List.lookup, hk] at h ⊢
    · exact ih h
    · exact Option.noConfusion h

/-- With duplicate-free dates the forEach loop never overwrites, so the
`days` object is the association list of the rows in order. -/
theorem buildDays_loop (rows : List Row) (m : List (Nat × DayEntry))
    (hdisj : ∀ r ∈ rows, m.lookup r.date = none)
    (hnodup : (rows.map Row.date).Nodup) :
    rows.foldl (fun m r => objSet m r.date (rowEntry r)) m
      = m ++ rows.map (fun r => (r.date, rowEntry r)) := by
  induction rows generalizing m with
  | nil => simp
  | cons a t ih =>
    rw [List.map_cons, List.nodup_cons] at hnodup
    obtain ⟨ha, ht⟩ := hnodup
    have hm : m.lookup a.date = none := hdisj a (List.mem_cons_self a t)
    rw [List.foldl_cons]
    have hobj : objSet m a.date (rowEntry a) = m ++ [(a.date, rowEntry a)] := by
      simp [objSet, hm]
    rw [hobj, ih]
    · simp
    · intro r hrt
      rw [lookup_append_left_none _ _ _ (hdisj r (List.mem_cons_of_mem a hrt))]
      have hne : (r.date == a.date) = false := by
        simp only [beq_eq_false_iff_ne, ne_eq]
        intro had
        exact ha (by rw [← had]; exact List.mem_map_of_mem Row.date hrt)
      simp [List.lookup, hne]
    · exact ht

theorem buildDays_eq_map (rows : List Row) (hnodup : (rows.map Row.date).Nodup) :
    buildDays rows = rows.map (fun r => (r.date, rowEntry r)) := by
  have := buildDays_loop rows [] (by intro r _; rfl) hnodup
  simpa [buildDays] using this

theorem lookup_map_rows (rows : List Row) (d : Nat) :
    (rows.map (fun r => (r.date, rowEntry r))).lookup d
      = (rows.find? (fun r => d == r.date)).map rowEntry := by
  induction rows with
  | nil => simp
  | cons a t ih =>
    cases h : d == a.date <;>
      simp only [List.map_cons, List.lookup, List.find?, h, ih, Option.map]

/-- The `days` object of the list-all response, at the date of a stored row
(store dates duplicate-free): exactly that row's `{status, message,
timeSlots}` entry. -/
theorem lookupDay_getAll (now : Nat) (s : Store) (r : Row)
    (hnodup : (s.map Row.date).Nodup) (hr : r ∈ s) :
    lookupDay (getAllAvailability now s) r.date = some (rowEntry r) := by
  have hperm := sortByDate_perm s
  have hn : ((sortByDate s).map Row.date).Nodup := by
    rw [(hperm.map Row.date).nodup_iff]
    exact hnodup
  have hm : r ∈ sortByDate s := hperm.mem_iff.2 hr
  show (buildDays (sortByDate s)).lookup r.date = some (rowEntry r)
  rw [buildDays_eq_map _ hn, lookup_map_rows, find?_date_eq_self _ r hn hm]
  rfl

/-- In a date-ascending sorted row list, `find?` returns a row of minimal
date among those satisfying the predicate. -/
theorem find?_min_date (l : List Row) (p : Row → Bool)
    (hs : List.Sorted (fun a b : Row => a.date ≤ b.date) l)
    (x : Row) (hx : l.find? p = some x) :
    ∀ y ∈ l, p y = true → x.date ≤ y.date := by
  induction l with
  | nil => simp at hx
  | cons a t ih =>
    rw [List.sorted_cons] at hs
    obtain ⟨ha, ht⟩ := hs
    intro y hy hpy
    cases hpa : p a
    · rw [List.find?_cons_of_neg _ (by simp [hpa])] at hx
      rcases List.mem_cons.1 hy with rfl | hyt
      · rw [hpa] at hpy
        cases hpy
      · exact ih ht hx y hyt hpy
    · rw [List.find?_cons_of_pos _ hpa] at hx
      cases hx
      rcases List.mem_cons.1 hy with rfl | hyt
      · exact Nat.le_refl _
      · exact ha y hyt

/-- With no matching row, `.single()` yields no data. -/
theorem selectSingle_eq_none (s : Store) (d : Nat) (h : ∀ r ∈ s, r.date ≠ d) :
    selectSingle s d = none := by
  have hfil : s.filter (fun r => r.date == d) = [] := by
    rw [List.filter_eq_nil_iff]
    intro r hr
    simp [h r hr]
  simp [selectSingle, hfil]

/-- A date absent from the store gets the synthesized default record. -/
theorem getAvailabilityForDate_of_absent (s : Store) (d : Nat)
    (h : ∀ r ∈ s, r.date ≠ d) :
    getAvailabilityForDate s d = ⟨200, ⟨d, "available", none, []⟩⟩ := by
  simp [getAvailabilityForDate, selectSingle_eq_none s d h]

/-! ### Claim theorems -/

/-- C2: for every date with no stored row, `GET /api/availability/:date`
returns HTTP 200 (success, not an error) with the synthesized default record
`{date: <requested date>, status: "available", message: null,
timeSlots: []}`. -/
theorem getDate_absent_returns_default (s : Store) (d : Nat)
    (h : ∀ r ∈ s, r.date ≠ d) :
    getAvailabilityForDate s d = ⟨200, ⟨d, "available", none, []⟩⟩ :=
  getAvailabilityForDate_of_absent s d h

/-- Witness for C2 at a concrete store and date. -/
theorem getDate_absent_returns_default_witness :
    getAvailabilityForDate [⟨1, "unavailable", some "closed", none⟩] 0
      = ⟨200, ⟨0, "available", none, []⟩⟩ :=
  getDate_absent_returns_default [⟨1, "unavailable", some "closed", none⟩] 0
    (by decide)

/-- C3: the upsert of `POST /api/availability` is idempotent: performing it
twice with the same body leaves the store exactly as performing it once. -/
theorem upsert_idempotent (s : Store) (b : Body) :
    upsert (upsert s b) b = upsert s b := by
  have hp : ((rowOfBody b).date == b.date) = true := by simp [rowOfBody]
  by_cases h : s.any (fun r => r.date == b.date) = true
  · have h1 : upsert s b
        = s.map (fun r => if r.date == b.date then rowOfBody b else r) := by
      simp [upsert, h]
    have h2 : (s.map (fun r => if r.date == b.date then rowOfBody b else r)).any
        (fun r => r.date == b.date) = true := by
      rw [List.any_eq_true] at h ⊢
      obtain ⟨r, hr, hrd⟩ := h
      exact ⟨rowOfBody b, List.mem_map.2 ⟨r, hr, by simp [hrd]⟩, hp⟩
    rw [h1]
    simp only [upsert, h2, if_true]
    rw [List.map_map]
    apply List.map_congr_left
    intro r _
    by_cases hrd : (r.date == b.date) = true
    · simp [Function.comp, hrd, hp]
    · simp [Function.comp, hrd]
  · have h1 : upsert s b = s ++ [rowOfBody b] := by simp [upsert, h]
    have h2 : ((s ++ [rowOfBody b]).any (fun r => r.date == b.date)) = true := by
      simp [hp]
    rw [h1]
    simp only [upsert, h2, if_true]
    rw [List.map_append]
    have hall : ∀ r ∈ s, (r.date == b.date) = false := by
      intro r hr
      by_contra hcon
      exact h (List.any_eq_true.2 ⟨r, hr, by simpa using hcon⟩)
    have hmap : s.map (fun r => if r.date == b.date then rowOfBody b else r) = s := by
      rw [show s = s.map id from (List.map_id s).symm]
      rw [List.map_map]
      apply List.map_congr_left
      intro r hr
      have hne : r.date ≠ b.date := by simpa using hall r hr
      simp [hne]
    rw [hmap]
    simp [hp]

/-- C7: deleting a date with no stored row succeeds with `{success: true}`
(HTTP 200, not an error), leaving the store unchanged. -/
theorem delete_absent_succeeds (s : Store) (d : Nat) (h : ∀ r ∈ s, r.date ≠ d) :
    deleteAvailability s d = (s, ⟨200, true⟩) := by
  have hfil : s.filter (fun r => !(r.date == d)) = s := by
    rw [List.filter_eq_self]
    intro r hr
    simp [h r hr]
  simp [deleteAvailability, hfil]

/-- Witness for C7 at a concrete store and date. -/
theorem delete_absent_succeeds_witness :
    deleteAvailability [⟨3, "available", none, some ["9am"]⟩] 7
      = ([⟨3, "available", none, some ["9am"]⟩], ⟨200, true⟩) :=
  delete_absent_succeeds [⟨3, "available", none, some ["9am"]⟩] 7 (by decide)

/-- C8: after deleting a date, a single-date read of that date returns the
synthesized default `{date, status: "available", message: null,
timeSlots: []}` record, for every prior store state. -/
theorem read_after_delete_returns_default (s : Store) (d : Nat) :
    getAvailabilityForDate (deleteAvailability s d).1 d
      = ⟨200, ⟨d, "available", none, []⟩⟩ := by
  apply getAvailabilityForDate_of_absent
  intro r hr
  have hmem := List.mem_filter.1 hr
  simpa using hmem.2

/-- C5: a stored row is returned by the single-date read with its own
`date`, `status`, `message`, and with `timeSlots` equal to the stored
`time_slots` when non-null and to `[]` when the stored `time_slots` is
null. -/
theorem getDate_present_normalizes (s : Store) (r : Row)
    (hnodup : (s.map Row.date).Nodup) (hr : r ∈ s) :
    (getAvailabilityForDate s r.date).httpStatus = 200 ∧
    (getAvailabilityForDate s r.date).body.date = r.date ∧
    (getAvailabilityForDate s r.date).body.status = r.status ∧
    (getAvailabilityForDate s r.date).body.message = r.message ∧
    (∀ l, r.time_slots = some l →
      (getAvailabilityForDate s r.date).body.timeSlots = l) ∧
    (r.time_slots = none →
      (getAvailabilityForDate s r.date).body.timeSlots = []) := by
  have hsel : selectSingle s r.date = some r := by
    simp [selectSingle, filter_date_eq_singleton s r hnodup hr]
  refine ⟨by simp [getAvailabilityForDate, hsel], by simp [getAvailabilityForDate, hsel],
    by simp [getAvailabilityForDate, hsel], by simp [getAvailabilityForDate, hsel],
    ?_, ?_⟩
  · intro l hl
    simp [getAvailabilityForDate, hsel, hl]
  · intro h0
    simp [getAvailabilityForDate, hsel, h0]

/-- Witness for C5 at a concrete store and row. -/
theorem getDate_present_normalizes_witness :
    (getAvailabilityForDate [⟨2, "booked", some "note", some ["1pm"]⟩] 2).httpStatus = 200 ∧
    (getAvailabilityForDate [⟨2, "booked", some "note", some ["1pm"]⟩] 2).body.date = 2 ∧
    (getAvailabilityForDate [⟨2, "booked", some "note", some ["1pm"]⟩] 2).body.status = "booked" ∧
    (getAvailabilityForDate [⟨2, "booked", some "note", some ["1pm"]⟩] 2).body.message = some "note" ∧
    (∀ l, (some ["1pm"] : Option (List String)) = some l →
      (getAvailabilityForDate [⟨2, "booked", some "note", some ["1pm"]⟩] 2).body.timeSlots = l) ∧
    ((some ["1pm"] : Option (List String)) = none →
      (getAvailabilityForDate [⟨2, "booked", some "note", some ["1pm"]⟩] 2).body.timeSlots = []) :=
  getDate_present_normalizes [⟨2, "booked", some "note", some ["1pm"]⟩]
    ⟨2, "booked", some "note", some ["1pm"]⟩ (by decide) (by decide)

/-- The error-handling property as the spec states it, for refutation: on a
store failure, every route's response body is a fixed generic message,
independent of the underlying error's detail. -/
def errorBodyGeneric : Prop :=
  ∀ (op : Op) (m m' : String),
    (handleStoreError op m).responseBody = (handleStoreError op m').responseBody

/-- C4 counterexample: the status probe's catch block (api.js line 163) puts
`error.message` itself into the response body, so the body is not independent
of the error detail: with detail "boom" the body is
`{status: "disconnected", error: "boom"}`. -/
theorem statusProbe_leaks_error_detail :
    ¬ errorBodyGeneric ∧
    (handleStoreError Op.statusProbe "boom").responseBody
      = [("status", "disconnected"), ("error", "boom")] := by
  constructor
  · intro h
    have hb := h Op.statusProbe "boom" "other"
    simp [handleStoreError] at hb
  · rfl

/-- C4 amended: every store failure is logged with its detail and answered
with HTTP 500; the four availability routes answer with a body that is a
fixed generic message independent of the error detail, but the status
probe's body additionally carries the underlying error's message. -/
theorem storeFailure_handling (op : Op) (m m' : String) :
    (handleStoreError op m).httpStatus = 500 ∧
    (handleStoreError op m).loggedError = m ∧
    (op ≠ Op.statusProbe →
      (handleStoreError op m).responseBody = (handleStoreError op m').responseBody) ∧
    (handleStoreError Op.statusProbe m).responseBody
      = [("status", "disconnected"), ("error", m)] := by
  refine ⟨?_, ?_, ?_, rfl⟩ <;> cases op <;> simp [handleStoreError]

/-- Witness for C4's amended theorem at a concrete route and error detail. -/
theorem storeFailure_handling_witness :
    (handleStoreError Op.getAll "boom").httpStatus = 500 ∧
    (handleStoreError Op.getAll "boom").loggedError = "boom" ∧
    (Op.getAll ≠ Op.statusProbe →
      (handleStoreError Op.getAll "boom").responseBody
        = (handleStoreError Op.getAll "other").responseBody) ∧
    (handleStoreError Op.statusProbe "boom").responseBody
      = [("status", "disconnected"), ("error", "boom")] :=
  storeFailure_handling Op.getAll "boom" "other"

/-- C6: field names are translated between the camelCase wire contract and
the snake_case store columns in both directions with no field dropped: the
upsert writes the body's `timeSlots` (and every other field) into the stored
row's `time_slots` column, the list-all read surfaces a stored row's
`time_slots` column as the `timeSlots` wire field of its `days` entry, and
the single-date read surfaces it as the `timeSlots` wire field of its
body. -/
theorem field_name_translation (now : Nat) (s : Store) (b : Body) (r : Row)
    (hnodup : (s.map Row.date).Nodup) (hr : r ∈ s) :
    rowOfBody b ∈ upsert s b ∧
    (rowOfBody b).date = b.date ∧
    (rowOfBody b).status = b.status ∧
    (rowOfBody b).message = b.message ∧
    (rowOfBody b).time_slots = b.timeSlots ∧
    lookupDay (getAllAvailability now s) r.date
      = some ⟨r.status, r.message, r.time_slots⟩ ∧
    (getAvailabilityForDate s r.date).body
      = ⟨r.date, r.status, r.message, r.time_slots.getD []⟩ := by
  refine ⟨?_, rfl, rfl, rfl, rfl, ?_, ?_⟩
  · by_cases h : s.any (fun x => x.date == b.date) = true
    · simp only [upsert, h, if_true]
      rw [List.any_eq_true] at h
      obtain ⟨x, hx, hxd⟩ := h
      exact List.mem_map.2 ⟨x, hx, by simp [hxd]⟩
    · simp [upsert, h]
  · exact lookupDay_getAll now s r hnodup hr
  · have hsel : selectSingle s r.date = some r := by
      simp [selectSingle, filter_date_eq_singleton s r hnodup hr]
    simp [getAvailabilityForDate, hsel]

/-- Witness for C6 at a concrete store, body and row. -/
theorem field_name_translation_witness :
    rowOfBody ⟨5, "available", none, some ["1pm"]⟩
        ∈ upsert [⟨2, "booked", some "note", none⟩] ⟨5, "available", none, some ["1pm"]⟩ ∧
    (rowOfBody ⟨5, "available", none, some ["1pm"]⟩).date = 5 ∧
    (rowOfBody ⟨5, "available", none, some ["1pm"]⟩).status = "available" ∧
    (rowOfBody ⟨5, "available", none, some ["1pm"]⟩).message = none ∧
    (rowOfBody ⟨5, "available", none, some ["1pm"]⟩).time_slots = some ["1pm"] ∧
    lookupDay (getAllAvailability 0 [⟨2, "booked", some "note", none⟩]) 2
      = some ⟨"booked", some "note", none⟩ ∧
    (getAvailabilityForDate [⟨2, "booked", some "note", none⟩] 2).body
      = ⟨2, "booked", some "note", (none : Option (List String)).getD []⟩ :=
  field_name_translation 0 [⟨2, "booked", some "note", none⟩]
    ⟨5, "available", none, some ["1pm"]⟩ ⟨2, "booked", some "note", none⟩
    (by decide) (by decide)

/-- The list-all claim as the spec states it, for refutation: `nextAvailable`
is null only when no stored row has `status = "available"` and date on/after
the current date (the day index `now / msPerDay` of the request instant). -/
def nextAvailableNullOnlyIfNoneQualifies (now : Nat) (s : Store) : Prop :=
  (getAllAvailability now s).nextAvailable = none →
    ∀ r ∈ s, ¬ (r.status = "available" ∧ now / msPerDay ≤ r.date)

/-- C1 counterexample: at one millisecond past midnight of day 0, the stored
row for day 0 with `status = "available"` qualifies under the claim's
date-level comparison (day 0 ≥ current date 0), yet the code compares the
instants `new Date(day.date) >= new Date()` (0 * 86400000 ≥ 1 is false) and
returns `nextAvailable = null`. -/
theorem nextAvailable_today_excluded :
    ¬ nextAvailableNullOnlyIfNoneQualifies 1 [⟨0, "available", none, some ["9am"]⟩] := by
  intro h
  exact h (by decide) ⟨0, "available", none, some ["9am"]⟩ (by decide)
    ⟨rfl, by decide⟩

/-- C1 amended: when `nextAvailable` is non-null it comes from a stored row
with `status = "available"` whose midnight instant `date * msPerDay` is on or
after the request instant `now` (hence its date is ≥ the current date
`now / msPerDay`), it carries that row's `time_slots`, and its date is
minimal among all stored rows satisfying that instant-level comparison;
`nextAvailable` is null exactly when no stored row satisfies it. A row dated
the current day is thus excluded once the request time is past midnight. -/
theorem nextAvailable_characterization (now : Nat) (s : Store) :
    (∀ nx, (getAllAvailability now s).nextAvailable = some nx →
      ∃ r ∈ s, r.date = nx.date ∧ r.status = "available" ∧
        now ≤ r.date * msPerDay ∧ now / msPerDay ≤ nx.date ∧
        nx.timeSlots = r.time_slots ∧
        ∀ x ∈ s, x.status = "available" → now ≤ x.date * msPerDay →
          nx.date ≤ x.date) ∧
    ((getAllAvailability now s).nextAvailable = none →
      ∀ x ∈ s, x.status = "available" → ¬ (now ≤ x.date * msPerDay)) := by
  have hperm := sortByDate_perm s
  constructor
  · intro nx h
    have h' : findNextAvailable now (sortByDate s) = some nx := h
    rw [findNextAvailable, Option.map_eq_some'] at h'
    obtain ⟨r, hfind, hnx⟩ := h'
    have hpr := List.find?_some hfind
    rw [Bool.and_eq_true] at hpr
    have hstat : r.status = "available" := by simpa using hpr.1
    have hle : now ≤ r.date * msPerDay := by simpa using hpr.2
    have hmem : r ∈ s := hperm.mem_iff.1 (List.mem_of_find?_eq_some hfind)
    have hnxd : nx.date = r.date := by rw [← hnx]
    have hnxt : nx.timeSlots = r.time_slots := by rw [← hnx]
    refine ⟨r, hmem, hnxd.symm, hstat, hle, ?_, hnxt, ?_⟩
    · rw [hnxd]
      exact Nat.div_le_of_le_mul (by rwa [Nat.mul_comm] at hle)
    · intro x hx hxs hxle
      have hxmem : x ∈ sortByDate s := hperm.mem_iff.2 hx
      have hmin := find?_min_date (sortByDate s) _ (sortByDate_sorted s) r hfind x
        hxmem (by simp [hxs, hxle])
      rw [hnxd]
      exact hmin
  · intro h x hx hxs hxle
    have h' : findNextAvailable now (sortByDate s) = none := h
    rw [findNextAvailable, Option.map_eq_none', List.find?_eq_none] at h'
    have := h' x (hperm.mem_iff.2 hx)
    simp [hxs, hxle] at this

/-- Witness for C1's amended theorem at a concrete request instant and
store. -/
theorem nextAvailable_characterization_witness :
    ∃ r ∈ ([⟨2, "available", none, some ["9am"]⟩] : Store),
      r.date = 2 ∧ r.status = "available" ∧ 100 ≤ r.date * msPerDay ∧
      100 / msPerDay ≤ 2 ∧ (some ["9am"] : Option (List String)) = r.time_slots ∧
      ∀ x ∈ ([⟨2, "available", none, some ["9am"]⟩] : Store),
        x.status = "available" → 100 ≤ x.date * msPerDay → 2 ≤ x.date :=
  (nextAvailable_characterization 100 [⟨2, "available", none, some ["9am"]⟩]).1
    ⟨2, some ["9am"]⟩ (by decide)

/-- C9: the list-all response passes `time_slots` through verbatim: a stored
row with null `time_slots` yields a `days` entry with `timeSlots = null`
(and when that row is the `nextAvailable` row, `nextAvailable.timeSlots` is
null as well), while the single-date read normalizes the same row's null
`time_slots` to `[]`. -/
theorem listAll_passes_timeSlots_verbatim (now : Nat) (s : Store) (r : Row)
    (hnodup : (s.map Row.date).Nodup) (hr : r ∈ s)
    (hnull : r.time_slots = none) :
    lookupDay (getAllAvailability now s) r.date
      = some ⟨r.status, r.message, none⟩ ∧
    (∀ nx, (getAllAvailability now s).nextAvailable = some nx →
      nx.date = r.date → nx.timeSlots = none) ∧
    (getAvailabilityForDate s r.date).body.timeSlots = [] := by
  refine ⟨?_, ?_, ?_⟩
  · have hl := lookupDay_getAll now s r hnodup hr
    rwa [rowEntry, hnull] at hl
  · intro nx h hdate
    have h' : findNextAvailable now (sortByDate s) = some nx := h
    rw [findNextAvailable, Option.map_eq_some'] at h'
    obtain ⟨x, hfind, hnx⟩ := h'
    have hxmem : x ∈ s :=
      (sortByDate_perm s).mem_iff.1 (List.mem_of_find?_eq_some hfind)
    rw [← hnx] at hdate
    have hxd : x.date = r.date := hdate
    have hxr : x = r := row_eq_of_date_eq hnodup hxmem hr hxd
    rw [← hnx]
    show x.time_slots = none
    rw [hxr]
    exact hnull
  · have hsel : selectSingle s r.date = some r := by
      simp [selectSingle, filter_date_eq_singleton s r hnodup hr]
    simp [getAvailabilityForDate, hsel, hnull]

/-- Witness for C9 at a concrete store and row with null `time_slots`. -/
theorem listAll_passes_timeSlots_verbatim_witness :
    lookupDay (getAllAvailability 0 [⟨0, "available", none, none⟩]) 0
      = some ⟨"available", none, none⟩ ∧
    (∀ nx, (getAllAvailability 0 [⟨0, "available", none, none⟩]).nextAvailable
        = some nx → nx.date = 0 → nx.timeSlots = none) ∧
    (getAvailabilityForDate [⟨0, "available", none, none⟩] 0).body.timeSlots = [] :=
  listAll_passes_timeSlots_verbatim 0 [⟨0, "available", none, none⟩]
    ⟨0, "available", none, none⟩ (by decide) (by decide) rfl

/-- C10: the list-all response is internally consistent: when
`nextAvailable` is non-null, its date is a key of the `days` mapping, that
entry's `status` is `"available"`, and that entry's `timeSlots` equals
`nextAvailable.timeSlots`. -/
theorem listAll_nextAvailable_consistent (now : Nat) (s : Store)
    (nx : NextAvailable) (hnodup : (s.map Row.date).Nodup)
    (h : (getAllAvailability now s).nextAvailable = some nx) :
    ∃ e, lookupDay (getAllAvailability now s) nx.date = some e ∧
      e.status = "available" ∧ e.timeSlots = nx.timeSlots := by
  have h' : findNextAvailable now (sortByDate s) = some nx := h
  rw [findNextAvailable, Option.map_eq_some'] at h'
  obtain ⟨x, hfind, hnx⟩ := h'
  have hxmem : x ∈ s :=
    (sortByDate_perm s).mem_iff.1 (List.mem_of_find?_eq_some hfind)
  have hpr := List.find?_some hfind
  rw [Bool.and_eq_true] at hpr
  have hstat : x.status = "available" := by simpa using hpr.1
  refine ⟨rowEntry x, ?_, hstat, ?_⟩
  · rw [← hnx]
    exact lookupDay_getAll now s x hnodup hxmem
  · rw [← hnx]
    exact rfl

/-- Witness for C10 at a concrete request instant and store. -/
theorem listAll_nextAvailable_consistent_witness :
    ∃ e, lookupDay (getAllAvailability 0 [⟨1, "available", none, some ["9am"]⟩]) 1
        = some e ∧ e.status = "available" ∧
      e.timeSlots = (some ["9am"] : Option (List String)) :=
  listAll_nextAvailable_consistent 0 [⟨1, "available", none, some ["9am"]⟩]
    ⟨1, some ["9am"]⟩ (by decide) (by decide)
